import Mathlib

/-!
Shallow embedding of `eval.py` from BraTS-2023-Metrics.

3D volumes are modelled as flat lists of voxel values: `List ℚ` for label
volumes (loaded by `get_fdata` as floats) and `List Nat` for connected
component id maps.  Numpy elementwise operations become `List.map` /
`List.zipWith` over the flattened voxel order.  `np.place(arr, mask, v)`
mutates `arr` in place and returns `None`; the embedding of any function
that uses it therefore returns the post-call contents of the caller's
arrays.  Division results that are NaN in floating point (0/0) are
modelled as `none : Option ℚ`, and a `+inf` HD95 value is modelled as
`none : Option ℚ` in the record that carries it.
-/

/-- Embedding of `np.place(arr, cond, v)` (numpy): every entry of `arr`
satisfying `cond` is overwritten with `v`.  numpy performs this mutation in
place; the embedding returns the array's post-call contents. -/
def np_place (arr : List ℚ) (cond : ℚ → Bool) (v : ℚ) : List ℚ :=
  arr.map (fun x => if cond x then v else x)

/-- Embedding of `get_TissueWiseSeg` (eval.py lines 35-74).  For each
recognized tissue type the source zeroes every voxel whose label is outside
the tissue's foreground label set with one `np.place`, then binarizes the
remaining positive labels to 1 with a second `np.place`; both `np.place`
calls mutate the caller's arrays, so the returned pair is also the
post-call contents of `(prediction_matrix, gt_matrix)`.  An unrecognized
`tissue_type` falls through the `if/elif` chain and the arrays are returned
untouched. -/
def get_TissueWiseSeg (prediction_matrix gt_matrix : List ℚ) (tissue_type : String) :
    List ℚ × List ℚ :=
  if tissue_type = "WT" then
    (np_place (np_place prediction_matrix (fun x => decide (x ≠ 1 ∧ x ≠ 2 ∧ x ≠ 3)) 0)
        (fun x => decide (0 < x)) 1,
     np_place (np_place gt_matrix (fun x => decide (x ≠ 1 ∧ x ≠ 2 ∧ x ≠ 3)) 0)
        (fun x => decide (0 < x)) 1)
  else if tissue_type = "TC" then
    (np_place (np_place prediction_matrix (fun x => decide (x ≠ 1 ∧ x ≠ 3)) 0)
        (fun x => decide (0 < x)) 1,
     np_place (np_place gt_matrix (fun x => decide (x ≠ 1 ∧ x ≠ 3)) 0)
        (fun x => decide (0 < x)) 1)
  else if tissue_type = "ET" then
    (np_place (np_place prediction_matrix (fun x => decide (x ≠ 3)) 0)
        (fun x => decide (0 < x)) 1,
     np_place (np_place gt_matrix (fun x => decide (x ≠ 3)) 0)
        (fun x => decide (0 < x)) 1)
  else (prediction_matrix, gt_matrix)

/-- The per-array masking rule of `get_TissueWiseSeg`, applied to a single
volume (used to state that each returned mask depends only on its own
input). -/
def tissueMaskOne (tissue_type : String) (arr : List ℚ) : List ℚ :=
  if tissue_type = "WT" then
    np_place (np_place arr (fun x => decide (x ≠ 1 ∧ x ≠ 2 ∧ x ≠ 3)) 0)
      (fun x => decide (0 < x)) 1
  else if tissue_type = "TC" then
    np_place (np_place arr (fun x => decide (x ≠ 1 ∧ x ≠ 3)) 0)
      (fun x => decide (0 < x)) 1
  else if tissue_type = "ET" then
    np_place (np_place arr (fun x => decide (x ≠ 3)) 0)
      (fun x => decide (0 < x)) 1
  else arr

lemma getD_map_of_lt {α β : Type} (f : α → β) (l : List α) (i : Nat)
    (hi : i < l.length) (d₁ : β) (d₂ : α) :
    (l.map f).getD i d₁ = f (l.getD i d₂) := by
  induction l generalizing i with
  | nil => simp at hi
  | cons a t ih =>
      cases i with
      | zero => simp
      | succ n =>
          simp only [List.map_cons, List.getD_cons_succ]
          exact ih n (by simpa using hi)

lemma getD_mem_of_lt {α : Type} (l : List α) (i : Nat) (hi : i < l.length) (d : α) :
    l.getD i d ∈ l := by
  induction l generalizing i with
  | nil => simp at hi
  | cons a t ih =>
      cases i with
      | zero => simp
      | succ n => exact List.mem_cons_of_mem _ (ih n (by simpa using hi))

lemma getD_zipWith_of_lt {α β γ : Type} (f : α → β → γ) (A : List α) (B : List β)
    (i : Nat) (hA : i < A.length) (hB : i < B.length) (d : γ) (dA : α) (dB : β) :
    (List.zipWith f A B).getD i d = f (A.getD i dA) (B.getD i dB) := by
  induction A generalizing B i with
  | nil => simp at hA
  | cons a ta ih =>
      cases B with
      | nil => simp at hB
      | cons b tb =>
          cases i with
          | zero => simp
          | succ n =>
              simp only [List.zipWith_cons_cons, List.getD_cons_succ]
              exact ih tb n (by simpa using hA) (by simpa using hB)

lemma get_TissueWiseSeg_eq_masks (pred gt : List ℚ) (t : String) :
    get_TissueWiseSeg pred gt t = (tissueMaskOne t pred, tissueMaskOne t gt) := by
  unfold get_TissueWiseSeg tissueMaskOne
  by_cases h1 : t = "WT" <;> by_cases h2 : t = "TC" <;> by_cases h3 : t = "ET" <;>
    simp [h1, h2, h3]

/-- C8: for a label volume with labels in {0,1,2,3}, the per-voxel tissue
masks are nested: every voxel the ET rule sets to 1 is set to 1 by the TC
rule, and every voxel the TC rule sets to 1 is set to 1 by the WT rule. -/
theorem tissue_masks_nested (vol : List ℚ)
    (hlab : ∀ x ∈ vol, x = 0 ∨ x = 1 ∨ x = 2 ∨ x = 3) (i : Nat) :
    (((get_TissueWiseSeg vol vol "ET").1.getD i 0 = 1 →
        (get_TissueWiseSeg vol vol "TC").1.getD i 0 = 1)
    ∧ ((get_TissueWiseSeg vol vol "TC").1.getD i 0 = 1 →
        (get_TissueWiseSeg vol vol "WT").1.getD i 0 = 1)) := by
  simp only [get_TissueWiseSeg_eq_masks]
  unfold tissueMaskOne np_place
  simp only [List.map_map, String.reduceEq, if_false, if_true, reduceIte]
  by_cases hi : i < vol.length
  · rw [getD_map_of_lt _ _ _ hi 0 0, getD_map_of_lt _ _ _ hi 0 0,
        getD_map_of_lt _ _ _ hi 0 0]
    have hx : vol.getD i 0 ∈ vol := getD_mem_of_lt vol i hi 0
    rcases hlab _ hx with h | h | h | h <;> rw [h] <;> norm_num
  · have hlen : vol.length ≤ i := Nat.le_of_not_lt hi
    rw [List.getD_eq_default _ _ (by simpa using hlen),
        List.getD_eq_default _ _ (by simpa using hlen),
        List.getD_eq_default _ _ (by simpa using hlen)]
    norm_num

/-- C8 witness. -/
theorem tissue_masks_nested_witness :
    (∀ x ∈ ([0, 1, 2, 3] : List ℚ), x = 0 ∨ x = 1 ∨ x = 2 ∨ x = 3) ∧
    (((get_TissueWiseSeg [0, 1, 2, 3] [0, 1, 2, 3] "ET").1.getD 3 0 = 1 →
        (get_TissueWiseSeg [0, 1, 2, 3] [0, 1, 2, 3] "TC").1.getD 3 0 = 1)
    ∧ ((get_TissueWiseSeg [0, 1, 2, 3] [0, 1, 2, 3] "TC").1.getD 3 0 = 1 →
        (get_TissueWiseSeg [0, 1, 2, 3] [0, 1, 2, 3] "WT").1.getD 3 0 = 1)) :=
  ⟨by decide, tissue_masks_nested [0, 1, 2, 3] (by decide) 3⟩

/-- C9 counterexample: `get_TissueWiseSeg` does NOT leave the caller's
arrays unchanged.  `np.place` writes into the array it is given, so after
`get_TissueWiseSeg([2], [3], 'WT')` the caller's arrays hold the binarized
masks `([1], [1])`, not the original labels `([2], [3])`. -/
theorem get_TissueWiseSeg_mutates_inputs :
    get_TissueWiseSeg [2] [3] "WT" ≠ ([2], [3]) := by
  decide

/-- C9 (amended): each returned mask of `get_TissueWiseSeg` is derived
only from its own input volume (no cross-contamination between the
prediction and ground-truth transforms), but the masks are written into
the caller's arrays in place, so the post-call contents of the inputs are
the masks themselves rather than the original labels. -/
theorem get_TissueWiseSeg_independent_transforms (pred gt : List ℚ) (t : String) :
    (get_TissueWiseSeg pred gt t).1 = tissueMaskOne t pred
    ∧ (get_TissueWiseSeg pred gt t).2 = tissueMaskOne t gt := by
  rw [get_TissueWiseSeg_eq_masks]
  exact ⟨rfl, rfl⟩

/-- C10: for any tissue type outside {WT, TC, ET} the `if/elif` chain of
`get_TissueWiseSeg` matches no branch and both volumes are returned
completely unchanged, with no error raised. -/
theorem get_TissueWiseSeg_unknown_tissue_id (pred gt : List ℚ) (t : String)
    (h1 : t ≠ "WT") (h2 : t ≠ "TC") (h3 : t ≠ "ET") :
    get_TissueWiseSeg pred gt t = (pred, gt) := by
  unfold get_TissueWiseSeg
  simp [h1, h2, h3]

/-- A numpy array: a shape together with the flattened voxel data.
`np.asarray(...).astype(bool)` maps every nonzero entry to `True`. -/
structure NpArray where
  shape : List Nat
  data : List ℚ
deriving DecidableEq

/-- Embedding of `dice` (eval.py lines 10-33): coerce both inputs to
boolean masks, raise `ValueError` when the shapes differ, otherwise return
`2 * |a ∧ b| / (|a| + |b|)`.  The float division `0/0` (both masks empty)
yields NaN in numpy, modelled as `Except.ok none`. -/
def dice (im1 im2 : NpArray) : Except String (Option ℚ) :=
  let b1 := im1.data.map (fun x => decide (x ≠ 0))
  let b2 := im2.data.map (fun x => decide (x ≠ 0))
  if im1.shape ≠ im2.shape then
    Except.error "Shape mismatch: im1 and im2 must have the same shape."
  else
    let inter := (b1.zip b2).countP (fun p => p.1 && p.2)
    let total := b1.countP (fun b => b) + b2.countP (fun b => b)
    if total = 0 then Except.ok none
    else Except.ok (some (2 * (inter : ℚ) / (total : ℚ)))

/-- The number of voxels that are nonzero in both raw data lists (the
claim's `|a ∧ b|`, stated on the raw inputs rather than on the coerced
boolean masks). -/
def nonzeroBothCount (d1 d2 : List ℚ) : Nat :=
  (d1.zip d2).countP (fun p => decide (p.1 ≠ 0 ∧ p.2 ≠ 0))

/-- The number of nonzero voxels of a raw data list (the claim's `|a|`). -/
def nonzeroCount (d : List ℚ) : Nat :=
  d.countP (fun x => decide (x ≠ 0))

lemma countP_map_decide (d : List ℚ) :
    (d.map (fun x => decide (x ≠ 0))).countP (fun b => b) = nonzeroCount d := by
  unfold nonzeroCount
  rw [List.countP_map]
  rfl

lemma countP_zip_map_decide (d1 d2 : List ℚ) :
    ((d1.map (fun x => decide (x ≠ 0))).zip (d2.map (fun x => decide (x ≠ 0)))).countP
        (fun p => p.1 && p.2) = nonzeroBothCount d1 d2 := by
  unfold nonzeroBothCount
  rw [List.zip_map, List.countP_map]
  apply List.countP_congr
  intro p _
  simp [Prod.map]

/-- C6: `dice` fails with the shape-mismatch error exactly when the two
inputs have different shapes; for equal shapes it returns
`2 * |a ∧ b| / (|a| + |b|)` on the coerced boolean masks, and when both
masks are entirely empty it returns the NaN sentinel instead of raising. -/
theorem dice_spec (im1 im2 : NpArray) :
    ((∃ e, dice im1 im2 = Except.error e) ↔ im1.shape ≠ im2.shape)
    ∧ (im1.shape = im2.shape →
        dice im1 im2 =
          if nonzeroCount im1.data + nonzeroCount im2.data = 0 then Except.ok none
          else Except.ok (some (2 * (nonzeroBothCount im1.data im2.data : ℚ) /
            ((nonzeroCount im1.data + nonzeroCount im2.data : Nat) : ℚ)))) := by
  by_cases hsh : im1.shape = im2.shape
  · constructor
    · constructor
      · rintro ⟨e, he⟩
        simp only [dice, hsh, ne_eq, not_true_eq_false, if_false] at he
        split at he <;> simp at he
      · intro h
        exact absurd hsh h
    · intro _
      simp only [dice, hsh, ne_eq, not_true_eq_false, if_false,
        countP_map_decide, countP_zip_map_decide]
  · constructor
    · constructor
      · intro _
        exact hsh
      · intro _
        exact ⟨"Shape mismatch: im1 and im2 must have the same shape.",
          by simp [dice, hsh]⟩
    · intro h
      exact absurd h hsh

/-- C6 witness. -/
theorem dice_spec_witness :
    (NpArray.mk [2] [1, 0]).shape = (NpArray.mk [2] [1, 1]).shape ∧
    dice (NpArray.mk [2] [1, 0]) (NpArray.mk [2] [1, 1]) =
      Except.ok (some (2 / 3)) := by
  refine ⟨rfl, ?_⟩
  rw [(dice_spec (NpArray.mk [2] [1, 0]) (NpArray.mk [2] [1, 1])).2 rfl]
  norm_num [nonzeroCount, nonzeroBothCount]

/-- `sys.float_info.min`, the smallest positive normal double, `2 ^ (-1022)`,
as an exact rational. -/
def float_info_min : ℚ := 1 / 2 ^ 1022

/-- Embedding of `get_sensitivity_and_specificity` (eval.py lines 239-258).
`overlap = np.where(result == target, 1, 0)` and
`TP = overlap[result == 1].sum()` count the voxels where `result == 1` and
`result == target`; `TN = np.count_nonzero((result != 1) & (target != 1))`;
the final `if` models the in-place overwrite of `Sens` when both inputs sum
to zero. -/
def get_sensitivity_and_specificity (result_array target_array : List ℚ) : ℚ × ℚ :=
  let iC := result_array.sum
  let rC := target_array.sum
  let TP : ℚ := ((result_array.zip target_array).countP
      (fun p => decide (p.1 = 1 ∧ p.1 = p.2)) : Nat)
  let FP := iC - TP
  let FN := rC - TP
  let TN : ℚ := ((result_array.zip target_array).countP
      (fun p => decide (p.1 ≠ 1 ∧ p.2 ≠ 1)) : Nat)
  let Sens := 1 * TP / (TP + FN + float_info_min)
  let Spec := 1 * TN / (TN + FP + float_info_min)
  if iC = 0 ∧ rC = 0 then (1, Spec) else (Sens, Spec)

/-- The claim's TP: voxels equal to 1 in both masks. -/
def truePosCount (r t : List ℚ) : Nat :=
  (r.zip t).countP (fun p => decide (p.1 = 1 ∧ p.2 = 1))

/-- The claim's TN: voxels where both masks differ from 1. -/
def trueNegCount (r t : List ℚ) : Nat :=
  (r.zip t).countP (fun p => decide (p.1 ≠ 1 ∧ p.2 ≠ 1))

lemma truePos_eq_overlap_count (r t : List ℚ) :
    (r.zip t).countP (fun p => decide (p.1 = 1 ∧ p.1 = p.2)) = truePosCount r t := by
  unfold truePosCount
  apply List.countP_congr
  intro p _
  constructor
  · intro h
    rcases of_decide_eq_true h with ⟨h1, h2⟩
    exact decide_eq_true (by exact ⟨h1, h1 ▸ h2.symm ▸ rfl⟩)
  · intro h
    rcases of_decide_eq_true h with ⟨h1, h2⟩
    exact decide_eq_true ⟨h1, h1.trans h2.symm⟩

lemma sum_eq_count_ones (l : List ℚ) (h01 : ∀ x ∈ l, x = 0 ∨ x = 1) :
    l.sum = (l.countP (fun x => decide (x = 1)) : Nat) := by
  induction l with
  | nil => simp
  | cons a tl ih =>
      have ha := h01 a (List.mem_cons_self a tl)
      have htl := ih (fun x hx => h01 x (List.mem_cons_of_mem a hx))
      rcases ha with ha | ha
      · simp [List.countP_cons, ha, htl]
      · simp [List.countP_cons, ha, htl]
        ring

lemma all_zero_of_sum_zero (l : List ℚ) (h01 : ∀ x ∈ l, x = 0 ∨ x = 1)
    (hs : l.sum = 0) : ∀ x ∈ l, x = 0 := by
  intro x hx
  rcases h01 x hx with h | h
  · exact h
  · exfalso
    rw [sum_eq_count_ones l h01] at hs
    have hc : l.countP (fun x => decide (x = 1)) = 0 := by exact_mod_cast hs
    rw [List.countP_eq_zero] at hc
    exact hc x hx (decide_eq_true h)

/-- C7: for equal-shape 0/1 masks, Sensitivity is `TP/(TP+FN+ε)` with the
both-empty override to 1, Specificity is always `TN/(TN+FP+ε)` with
`TP` = voxels equal to 1 in both, `FP = sum(result) − TP`,
`FN = sum(target) − TP`, `TN` = voxels where both differ from 1 and
`ε = sys.float_info.min`; in the both-empty case Specificity is the
formula's value `N/(N+ε)` where `N` is the total voxel count. -/
theorem sensitivity_specificity_spec (r t : List ℚ)
    (h01r : ∀ x ∈ r, x = 0 ∨ x = 1) (h01t : ∀ x ∈ t, x = 0 ∨ x = 1)
    (hlen : r.length = t.length) :
    ((get_sensitivity_and_specificity r t).1 =
      if r.sum = 0 ∧ t.sum = 0 then 1
      else (truePosCount r t : ℚ) /
        ((truePosCount r t : ℚ) + (t.sum - (truePosCount r t : ℚ)) + float_info_min))
    ∧ ((get_sensitivity_and_specificity r t).2 =
      (trueNegCount r t : ℚ) /
        ((trueNegCount r t : ℚ) + (r.sum - (truePosCount r t : ℚ)) + float_info_min))
    ∧ (r.sum = 0 ∧ t.sum = 0 →
      (get_sensitivity_and_specificity r t).2 =
        (r.length : ℚ) / ((r.length : ℚ) + float_info_min)) := by
  have hTP : (r.zip t).countP (fun p => decide (p.1 = 1 ∧ p.1 = p.2)) =
      truePosCount r t := truePos_eq_overlap_count r t
  refine ⟨?_, ?_, ?_⟩
  · unfold get_sensitivity_and_specificity
    rw [hTP]
    by_cases h : r.sum = 0 ∧ t.sum = 0 <;> simp [h, trueNegCount]
  · unfold get_sensitivity_and_specificity
    rw [hTP]
    by_cases h : r.sum = 0 ∧ t.sum = 0 <;> simp [h, trueNegCount]
  · rintro ⟨hr, ht⟩
    have hzr := all_zero_of_sum_zero r h01r hr
    have hzt := all_zero_of_sum_zero t h01t ht
    have hTPz : truePosCount r t = 0 := by
      unfold truePosCount
      rw [List.countP_eq_zero]
      intro p hp
      have h1 : p.1 = 0 := hzr p.1 (List.of_mem_zip hp).1
      simp [h1]
    have hTNall : trueNegCount r t = r.length := by
      unfold trueNegCount
      have hall : ∀ p ∈ r.zip t, (fun p : ℚ × ℚ => decide (p.1 ≠ 1 ∧ p.2 ≠ 1)) p := by
        intro p hp
        have h1 : p.1 = 0 := hzr p.1 (List.of_mem_zip hp).1
        have h2 : p.2 = 0 := hzt p.2 (List.of_mem_zip hp).2
        simp [h1, h2]
      rw [List.countP_eq_length.mpr hall, List.length_zip, hlen, Nat.min_self]
    have hTN' : (r.zip t).countP (fun p => decide (p.1 ≠ 1 ∧ p.2 ≠ 1)) = r.length :=
      hTNall
    unfold get_sensitivity_and_specificity
    rw [hTP]
    simp only [hr, ht, and_self, if_true, hTPz, hTN']
    push_cast
    ring_nf

/-- C7 witness. -/
theorem sensitivity_specificity_spec_witness :
    ((∀ x ∈ ([0, 0] : List ℚ), x = 0 ∨ x = 1) ∧
     (∀ x ∈ ([0, 0] : List ℚ), x = 0 ∨ x = 1) ∧
     ([0, 0] : List ℚ).length = ([0, 0] : List ℚ).length) ∧
    (get_sensitivity_and_specificity [0, 0] [0, 0]).1 = 1 ∧
    (get_sensitivity_and_specificity [0, 0] [0, 0]).2 =
      (2 : ℚ) / ((2 : ℚ) + float_info_min) := by
  have h := sensitivity_specificity_spec [0, 0] [0, 0]
    (by decide) (by decide) rfl
  refine ⟨⟨by decide, by decide, rfl⟩, ?_, ?_⟩
  · rw [h.1]
    norm_num
  · have h2 := h.2.2 ⟨by norm_num, by norm_num⟩
    rw [h2]
    norm_num

/-- C10 witness. -/
theorem get_TissueWiseSeg_unknown_tissue_id_witness :
    ("XT" ≠ "WT" ∧ "XT" ≠ "TC" ∧ "XT" ≠ "ET") ∧
    get_TissueWiseSeg [0, 2, 5] [1, 3, 7] "XT" = ([0, 2, 5], [1, 3, 7]) :=
  ⟨by decide,
   get_TissueWiseSeg_unknown_tissue_id [0, 2, 5] [1, 3, 7] "XT"
     (by decide) (by decide) (by decide)⟩

/-- `np.max` of a component id map (ids are nonnegative; 0 on an empty
array, matching numpy only on the nonempty arrays the source feeds it). -/
def np_max (xs : List Nat) : Nat := xs.foldr max 0

/-- `gt_d_tmp = np.zeros_like(..); gt_d_tmp[gt_dilated_cc_mat == comp] = 1`:
the 0/1 indicator of the voxels carrying dilated-component id `comp`. -/
def eqIndicator (D : List Nat) (comp : Nat) : List Nat :=
  D.map (fun d => if d = comp then 1 else 0)

/-- Elementwise product of two integer volumes. -/
def elemMul (A B : List Nat) : List Nat := List.zipWith (fun a b => a * b) A B

/-- `np.place(tmp, tmp > 0, comp)`: every positive entry becomes `comp`. -/
def placePosNat (A : List Nat) (comp : Nat) : List Nat :=
  A.map (fun a => if 0 < a then comp else a)

/-- Elementwise sum of two integer volumes (`out += tmp`). -/
def elemAdd (A B : List Nat) : List Nat := List.zipWith (fun a b => a + b) A B

/-- One loop iteration of `get_GTseg_combinedByDilation` for dilated id
`comp`: mask the dilated blob, multiply by the original component map,
relabel every nonzero entry to `comp`. -/
def dilationTerm (D L : List Nat) (comp : Nat) : List Nat :=
  placePosNat (elemMul L (eqIndicator D comp)) comp

/-- Embedding of `get_GTseg_combinedByDilation` (eval.py lines 77-109):
accumulate the per-dilated-component terms by elementwise addition into a
zero-initialised output, for `comp` in `1 .. np.max(gt_dilated_cc_mat)`. -/
def get_GTseg_combinedByDilation (gt_dilated_cc_mat gt_label_cc : List Nat) : List Nat :=
  (List.range (np_max gt_dilated_cc_mat)).foldl
    (fun acc k => elemAdd acc (dilationTerm gt_dilated_cc_mat gt_label_cc (k + 1)))
    (List.replicate gt_dilated_cc_mat.length 0)

lemma getD_replicate_zero (n i : Nat) : (List.replicate n (0 : Nat)).getD i 0 = 0 := by
  induction n generalizing i with
  | zero => simp
  | succ m ih =>
      cases i with
      | zero => simp [List.replicate_succ]
      | succ j =>
          rw [List.replicate_succ, List.getD_cons_succ]
          exact ih j

lemma elemAdd_length (A B : List Nat) : (elemAdd A B).length = min A.length B.length := by
  simp [elemAdd]

lemma elemAdd_getD (A B : List Nat) (i : Nat) (hA : i < A.length) (hB : i < B.length) :
    (elemAdd A B).getD i 0 = A.getD i 0 + B.getD i 0 :=
  getD_zipWith_of_lt _ A B i hA hB 0 0 0

lemma dilationTerm_length (D L : List Nat) (hlen : D.length = L.length) (c : Nat) :
    (dilationTerm D L c).length = D.length := by
  simp [dilationTerm, placePosNat, elemMul, eqIndicator, hlen]

lemma dilationTerm_getD (D L : List Nat) (hlen : D.length = L.length) (c i : Nat)
    (hi : i < D.length) :
    (dilationTerm D L c).getD i 0 =
      if D.getD i 0 = c ∧ L.getD i 0 ≠ 0 then c else 0 := by
  have hiL : i < L.length := hlen ▸ hi
  have hiM : i < (elemMul L (eqIndicator D c)).length := by
    simpa [elemMul, eqIndicator, hlen] using hi
  unfold dilationTerm placePosNat
  rw [getD_map_of_lt _ _ _ hiM 0 0]
  unfold elemMul
  rw [getD_zipWith_of_lt _ _ _ _ hiL (by simpa [eqIndicator] using hi) 0 0 0]
  unfold eqIndicator
  rw [getD_map_of_lt _ _ _ hi 0 0]
  by_cases hd : D.getD i 0 = c
  · simp only [hd, eq_self_iff_true, if_true, true_and, mul_one]
    split_ifs <;> omega
  · have hrhs : ¬(D.getD i 0 = c ∧ L.getD i 0 ≠ 0) := fun h => hd h.1
    simp only [if_neg hd, if_neg hrhs, mul_zero]
    simp

lemma combined_partial (D L : List Nat) (hlen : D.length = L.length) (n : Nat) :
    (((List.range n).foldl
        (fun acc k => elemAdd acc (dilationTerm D L (k + 1)))
        (List.replicate D.length 0)).length = D.length)
    ∧ (∀ i, i < D.length →
        ((List.range n).foldl
          (fun acc k => elemAdd acc (dilationTerm D L (k + 1)))
          (List.replicate D.length 0)).getD i 0 =
        if D.getD i 0 ≠ 0 ∧ D.getD i 0 ≤ n ∧ L.getD i 0 ≠ 0
        then D.getD i 0 else 0) := by
  induction n with
  | zero =>
      refine ⟨by simp, fun i hi => ?_⟩
      rw [List.range_zero, List.foldl_nil, getD_replicate_zero]
      split_ifs <;> omega
  | succ m ih =>
      rw [List.range_succ]
      simp only [List.foldl_append, List.foldl_cons, List.foldl_nil]
      constructor
      · rw [elemAdd_length, ih.1, dilationTerm_length D L hlen]
        exact Nat.min_self _
      · intro i hi
        rw [elemAdd_getD _ _ i (by rw [ih.1]; exact hi)
              (by rw [dilationTerm_length D L hlen]; exact hi),
            ih.2 i hi, dilationTerm_getD D L hlen _ i hi]
        split_ifs <;> omega

lemma mem_le_np_max (xs : List Nat) (a : Nat) (ha : a ∈ xs) : a ≤ np_max xs := by
  induction xs with
  | nil => simp at ha
  | cons x t ih =>
      rcases List.mem_cons.mp ha with h | h
      · simp [np_max, h, Nat.le_max_left]
      · calc a ≤ t.foldr max 0 := ih h
             _ ≤ np_max (x :: t) := by simp [np_max, Nat.le_max_right]

lemma countP_range_eq_succ (d : Nat) (n : Nat) :
    (List.range n).countP (fun k => decide (d = k + 1)) =
      if 1 ≤ d ∧ d ≤ n then 1 else 0 := by
  induction n with
  | zero =>
      rw [List.range_zero, List.countP_nil]
      split_ifs <;> omega
  | succ m ih =>
      rw [List.range_succ, List.countP_append, ih]
      by_cases hd : d = m + 1
      · rw [List.countP_cons, List.countP_nil, if_pos (decide_eq_true hd)]
        split_ifs <;> omega
      · rw [List.countP_cons, List.countP_nil,
            if_neg (fun h => hd (of_decide_eq_true h))]
        split_ifs <;> omega

/-- C2: when every nonzero voxel of the original component map lies in some
dilated component (dilated components are pairwise disjoint by construction,
each voxel holding a single id), the merged map is zero exactly where the
original map is zero and elsewhere equals the id of the unique dilated
component containing the voxel; moreover at most one loop term contributes
a nonzero value at any voxel, so accumulation by addition is assignment and
the output ids stay in `1 .. np.max(gt_dilated_cc_mat)`. -/
theorem get_GTseg_combinedByDilation_spec (D L : List Nat)
    (hlen : D.length = L.length)
    (hcov : ∀ i, i < L.length → L.getD i 0 ≠ 0 → D.getD i 0 ≠ 0) :
    ((get_GTseg_combinedByDilation D L).length = D.length)
    ∧ (∀ i, i < D.length →
        (get_GTseg_combinedByDilation D L).getD i 0 =
          if L.getD i 0 = 0 then 0 else D.getD i 0)
    ∧ (∀ i, i < D.length →
        (List.range (np_max D)).countP
          (fun k => decide ((dilationTerm D L (k + 1)).getD i 0 ≠ 0)) ≤ 1) := by
  have hpart := combined_partial D L hlen (np_max D)
  refine ⟨?_, fun i hi => ?_, fun i hi => ?_⟩
  · unfold get_GTseg_combinedByDilation
    exact hpart.1
  · unfold get_GTseg_combinedByDilation
    rw [hpart.2 i hi]
    have hmax : D.getD i 0 ≤ np_max D := mem_le_np_max D _ (getD_mem_of_lt D i hi 0)
    by_cases hl : L.getD i 0 = 0
    · rw [if_neg (fun h => h.2.2 hl), if_pos hl]
    · have hd : D.getD i 0 ≠ 0 := hcov i (hlen ▸ hi) hl
      rw [if_pos ⟨hd, hmax, hl⟩, if_neg hl]
  · have hco : (List.range (np_max D)).countP
        (fun k => decide ((dilationTerm D L (k + 1)).getD i 0 ≠ 0)) =
      (List.range (np_max D)).countP
        (fun k => decide (D.getD i 0 = k + 1 ∧ L.getD i 0 ≠ 0)) := by
      apply List.countP_congr
      intro k _
      rw [dilationTerm_getD D L hlen _ i hi]
      by_cases hc : D.getD i 0 = k + 1 ∧ L.getD i 0 ≠ 0
      · rw [if_pos hc]
        constructor
        · intro _
          exact decide_eq_true hc
        · intro _
          exact decide_eq_true (Nat.succ_ne_zero k)
      · rw [if_neg hc]
        constructor
        · intro h
          exact absurd rfl (of_decide_eq_true h)
        · intro h
          exact absurd (of_decide_eq_true h) hc
    rw [hco]
    by_cases hl : L.getD i 0 = 0
    · have hz : (List.range (np_max D)).countP
          (fun k => decide (D.getD i 0 = k + 1 ∧ L.getD i 0 ≠ 0)) = 0 :=
        List.countP_eq_zero.mpr (fun k _ h => (of_decide_eq_true h).2 hl)
      rw [hz]
      omega
    · have heq : (List.range (np_max D)).countP
          (fun k => decide (D.getD i 0 = k + 1 ∧ L.getD i 0 ≠ 0)) =
        (List.range (np_max D)).countP
          (fun k => decide (D.getD i 0 = k + 1)) := by
        apply List.countP_congr
        intro k _
        constructor
        · intro h
          exact decide_eq_true (of_decide_eq_true h).1
        · intro h
          exact decide_eq_true ⟨of_decide_eq_true h, hl⟩
      rw [heq, countP_range_eq_succ]
      split_ifs <;> omega

/-- C2 witness: two original components 1 and 2 both inside dilated
component 1 are merged to id 1; the background voxel stays 0. -/
theorem get_GTseg_combinedByDilation_spec_witness :
    (([1, 1, 2] : List Nat).length = ([1, 2, 0] : List Nat).length ∧
     (∀ i, i < ([1, 2, 0] : List Nat).length →
        ([1, 2, 0] : List Nat).getD i 0 ≠ 0 → ([1, 1, 2] : List Nat).getD i 0 ≠ 0)) ∧
    get_GTseg_combinedByDilation [1, 1, 2] [1, 2, 0] = [1, 1, 0] ∧
    (get_GTseg_combinedByDilation [1, 1, 2] [1, 2, 0]).getD 2 0 = 0 := by
  have h := get_GTseg_combinedByDilation_spec [1, 1, 2] [1, 2, 0] rfl (by decide)
  refine ⟨⟨rfl, by decide⟩, by decide, ?_⟩
  rw [h.2.1 2 (by decide)]
  decide

/-- The intersecting predicted ids for merged GT lesion `g` (eval.py
205-209): `pred_tmp = pred_label_cc * gt_tmp` keeps the predicted id at
voxels of lesion `g` and 0 elsewhere; `np.unique` collects the distinct
values (it also sorts, which no downstream use depends on — membership,
emptiness and per-id count are order-independent, so `dedup` models it);
finally id 0 is dropped. -/
def intersecting_cc (pred gt : List Nat) (g : Nat) : List Nat :=
  (((pred.zip gt).map (fun pr => if pr.2 = g then pr.1 else 0)).dedup).filter
    (fun p => decide (p ≠ 0))

/-- The true-positive predicted id list `tp` (eval.py 190, 210-211): the
loop over `gtcomp` in `1 .. np.max(gt_label_cc)` appends every intersecting
id of every lesion. -/
def tpList (pred gt : List Nat) : List Nat :=
  (List.range (np_max gt)).flatMap (fun k => intersecting_cc pred gt (k + 1))

/-- The false-positive id array `fp` (eval.py 232-234):
`np.unique(pred_label_cc[np.isin(pred_label_cc, tp+[0], invert=True)])`,
the distinct entries of the predicted component map that are neither 0 nor
in `tp`. -/
def fpList (pred gt : List Nat) : List Nat :=
  (pred.filter (fun p => decide (¬(p ∈ tpList pred gt ∨ p = 0)))).dedup

/-- The true-positive GT lesion list `gt_tp` (eval.py 227-228): lesions
with a nonempty intersecting set. -/
def gt_tpList (pred gt : List Nat) : List Nat :=
  ((List.range (np_max gt)).map (fun k => k + 1)).filter
    (fun g => decide (intersecting_cc pred gt g ≠ []))

/-- The false-negative GT lesion list `fn` (eval.py 229-230): lesions with
an empty intersecting set. -/
def fnList (pred gt : List Nat) : List Nat :=
  ((List.range (np_max gt)).map (fun k => k + 1)).filter
    (fun g => decide (intersecting_cc pred gt g = []))

lemma mem_intersecting_cc (pred gt : List Nat) (g p : Nat) :
    p ∈ intersecting_cc pred gt g ↔ p ≠ 0 ∧ (p, g) ∈ pred.zip gt := by
  unfold intersecting_cc
  rw [List.mem_filter, List.mem_dedup, List.mem_map]
  constructor
  · rintro ⟨⟨⟨p1, p2⟩, hpr, hval⟩, hp0⟩
    dsimp at hval
    have hp0' : p ≠ 0 := of_decide_eq_true hp0
    by_cases h2 : p2 = g
    · rw [if_pos h2] at hval
      subst hval
      subst h2
      exact ⟨hp0', hpr⟩
    · rw [if_neg h2] at hval
      exact absurd hval.symm hp0'
  · rintro ⟨hp0, hmem⟩
    exact ⟨⟨(p, g), hmem, by simp⟩, decide_eq_true hp0⟩

lemma nodup_intersecting_cc (pred gt : List Nat) (g : Nat) :
    (intersecting_cc pred gt g).Nodup :=
  List.Nodup.filter _ (List.nodup_dedup _)

lemma count_flatMap_eq_sum {α : Type} [DecidableEq α] (l : List Nat)
    (f : Nat → List α) (x : α) :
    ((l.flatMap f).count x) = (l.map (fun k => (f k).count x)).sum := by
  induction l with
  | nil => simp
  | cons a t ih => simp [List.flatMap_cons, List.count_append, ih]

lemma sum_map_indicator_eq_countP (l : List Nat) (P : Nat → Prop)
    [DecidablePred P] :
    (l.map (fun k => if P k then 1 else 0)).sum = l.countP (fun k => decide (P k)) := by
  induction l with
  | nil => simp
  | cons a t ih =>
      by_cases h : P a
      · simp only [List.map_cons, List.sum_cons, List.countP_cons, ih,
          if_pos h, if_pos (decide_eq_true h)]
        omega
      · simp only [List.map_cons, List.sum_cons, List.countP_cons, ih,
          if_neg h, if_neg (fun hh => h (of_decide_eq_true hh))]
        omega

/-- C1: for every nonzero predicted id `p`: `p` appears in the
true-positive list once per merged GT lesion whose mask it overlaps (the
count equals the number of lesion ids `g = k+1` such that some voxel
carries `(p, g)`); every overlapped lesion id lies in `1 .. np.max(gt)` so
the loop visits it; the false-positive set holds exactly the distinct
nonzero predicted ids absent from the true-positive list; and no id is
both a true positive and a false positive. -/
theorem lesion_matcher_tp_fp (pred gt : List Nat) :
    (fpList pred gt).Nodup
    ∧ ∀ p : Nat, p ≠ 0 →
      ((tpList pred gt).count p =
          (List.range (np_max gt)).countP (fun k => decide ((p, k + 1) ∈ pred.zip gt))
        ∧ (∀ g : Nat, (p, g) ∈ pred.zip gt → g ≠ 0 → 1 ≤ g ∧ g ≤ np_max gt)
        ∧ (p ∈ fpList pred gt ↔ (p ∈ pred ∧ p ∉ tpList pred gt))
        ∧ ¬(p ∈ tpList pred gt ∧ p ∈ fpList pred gt)) := by
  have hfp : ∀ p : Nat, p ≠ 0 →
      (p ∈ fpList pred gt ↔ (p ∈ pred ∧ p ∉ tpList pred gt)) := by
    intro p hp0
    unfold fpList
    rw [List.mem_dedup, List.mem_filter]
    constructor
    · rintro ⟨hmem, hflt⟩
      have h := of_decide_eq_true hflt
      exact ⟨hmem, fun ht => h (Or.inl ht)⟩
    · rintro ⟨hmem, hnt⟩
      refine ⟨hmem, decide_eq_true ?_⟩
      rintro (h | h)
      · exact hnt h
      · exact hp0 h
  refine ⟨List.nodup_dedup _, fun p hp0 => ?_⟩
  refine ⟨?_, ?_, hfp p hp0, ?_⟩
  · unfold tpList
    rw [count_flatMap_eq_sum]
    have hcnt : ∀ k : Nat, (intersecting_cc pred gt (k + 1)).count p =
        if p ∈ intersecting_cc pred gt (k + 1) then 1 else 0 := by
      intro k
      by_cases hm : p ∈ intersecting_cc pred gt (k + 1)
      · rw [if_pos hm, List.count_eq_one_of_mem (nodup_intersecting_cc pred gt (k + 1)) hm]
      · rw [if_neg hm, List.count_eq_zero_of_not_mem hm]
    calc ((List.range (np_max gt)).map
            (fun k => (intersecting_cc pred gt (k + 1)).count p)).sum
        = ((List.range (np_max gt)).map
            (fun k => if p ∈ intersecting_cc pred gt (k + 1) then 1 else 0)).sum := by
          rw [List.map_congr_left (fun k _ => hcnt k)]
      _ = (List.range (np_max gt)).countP
            (fun k => decide (p ∈ intersecting_cc pred gt (k + 1))) :=
          sum_map_indicator_eq_countP _ _
      _ = (List.range (np_max gt)).countP
            (fun k => decide ((p, k + 1) ∈ pred.zip gt)) := by
          apply List.countP_congr
          intro k _
          constructor
          · intro h
            exact decide_eq_true ((mem_intersecting_cc pred gt (k + 1) p).mp
              (of_decide_eq_true h)).2
          · intro h
            exact decide_eq_true ((mem_intersecting_cc pred gt (k + 1) p).mpr
              ⟨hp0, of_decide_eq_true h⟩)
  · intro g hg hg0
    have hgmem : g ∈ gt := (List.of_mem_zip hg).2
    exact ⟨Nat.one_le_iff_ne_zero.mpr hg0, mem_le_np_max gt g hgmem⟩
  · rintro ⟨ht, hf⟩
    exact ((hfp p hp0).mp hf).2 ht

/-- C1 witness: predicted component 1 overlaps both merged GT lesions 1
and 2, so it appears twice in `tp` and never in `fp`. -/
theorem lesion_matcher_tp_fp_witness :
    ((1 : Nat) ≠ 0) ∧
    (tpList [1, 1, 3] [1, 2, 2]).count 1 = 2 ∧
    (1 ∈ fpList [1, 1, 3] [1, 2, 2] ↔
      (1 ∈ ([1, 1, 3] : List Nat) ∧ 1 ∉ tpList [1, 1, 3] [1, 2, 2])) ∧
    ¬(1 ∈ tpList [1, 1, 3] [1, 2, 2] ∧ 1 ∈ fpList [1, 1, 3] [1, 2, 2]) := by
  have h := (lesion_matcher_tp_fp [1, 1, 3] [1, 2, 2]).2 1 (by decide)
  refine ⟨by decide, ?_, h.2.2.1, h.2.2.2⟩
  rw [h.1]
  decide

/-- One row of the per-tissue `metric_df` built from `metric_pairs`
(eval.py 223-224, 288-291); the intersecting-id and lesion-number columns
play no role in aggregation and are omitted.  `hd95_lesionwise = none`
models a `+inf` Hausdorff value (disjoint masks); every finite value is an
exact rational.  A lesion record whose Dice is the float NaN can only arise
from an empty GT lesion mask, which has volume 0 and can never pass the
volume filter, so `dice_lesionwise` is carried as a plain rational. -/
structure MatchRecord where
  gt_lesion_vol : ℚ
  dice_lesionwise : ℚ
  hd95_lesionwise : Option ℚ
deriving DecidableEq, Inhabited

/-- `metric_df = metric_df.replace(np.inf, 374)` (eval.py 294) applied to
one row: the only column that can hold `inf` is `hd95_lesionwise`. -/
def replace_inf (r : MatchRecord) : MatchRecord :=
  { r with hd95_lesionwise := some (r.hd95_lesionwise.getD 374) }

/-- The dataframe after the `replace(np.inf, 374)` of eval.py 294.  The
source also sorts the rows by GT lesion number (line 291); sorting permutes
rows only and every downstream use (filtering, length, sums) is
permutation-invariant, so the embedding keeps the loop order. -/
def metric_df_replaced (rs : List MatchRecord) : List MatchRecord :=
  rs.map replace_inf

/-- `metric_df_thresh5 = metric_df[metric_df['gt_lesion_vol'] > 5]`
(eval.py 297). -/
def metric_df_thresh5 (rs : List MatchRecord) : List MatchRecord :=
  (metric_df_replaced rs).filter (fun r => decide (5 < r.gt_lesion_vol))

/-- numpy float division: NaN (`none`) when the denominator is zero.  In
the two uses below a zero denominator forces an empty filtered frame, so
the numerator is then the empty sum 0 and the float result is the NaN of
0/0 (a RuntimeWarning, not an exception; the `try/except` fallback to
`np.nan` yields the same observable value). -/
def np_div (num den : ℚ) : Option ℚ :=
  if den = 0 then none else some (num / den)

/-- `lesion_wise_dice` (eval.py 299-302). -/
def lesion_wise_dice (rs : List MatchRecord) (fp_len : Nat) : Option ℚ :=
  np_div ((metric_df_thresh5 rs).map MatchRecord.dice_lesionwise).sum
    (((metric_df_thresh5 rs).length : ℚ) + (fp_len : ℚ))

/-- `lesion_wise_hd95` (eval.py 304-307): the thresholded HD95 sum plus a
374 penalty per false positive, over the same denominator. -/
def lesion_wise_hd95 (rs : List MatchRecord) (fp_len : Nat) : Option ℚ :=
  np_div (((metric_df_thresh5 rs).map (fun r => r.hd95_lesionwise.getD 374)).sum
      + (fp_len : ℚ) * 374)
    (((metric_df_thresh5 rs).length : ℚ) + (fp_len : ℚ))

lemma den_cast_eq_zero (a b : Nat) :
    ((a : ℚ) + (b : ℚ) = 0) ↔ a + b = 0 := by
  constructor
  · intro h
    exact_mod_cast h
  · intro h
    exact_mod_cast congrArg (Nat.cast : Nat → ℚ) h

/-- C3: the aggregate lesion-wise Dice and HD95 are the stated quotients
whenever `count(thresholded) + count(falsePositives)` is nonzero, and both
are the NaN missing-value sentinel — with no exception raised — when that
denominator is zero. -/
theorem lesion_wise_aggregation_spec (rs : List MatchRecord) (fp_len : Nat) :
    ((metric_df_thresh5 rs).length + fp_len ≠ 0 →
      lesion_wise_dice rs fp_len =
        some (((metric_df_thresh5 rs).map MatchRecord.dice_lesionwise).sum /
          (((metric_df_thresh5 rs).length : ℚ) + (fp_len : ℚ)))
      ∧ lesion_wise_hd95 rs fp_len =
        some ((((metric_df_thresh5 rs).map (fun r => r.hd95_lesionwise.getD 374)).sum
            + (fp_len : ℚ) * 374) /
          (((metric_df_thresh5 rs).length : ℚ) + (fp_len : ℚ))))
    ∧ ((metric_df_thresh5 rs).length + fp_len = 0 →
      lesion_wise_dice rs fp_len = none ∧ lesion_wise_hd95 rs fp_len = none) := by
  constructor
  · intro h
    have hden : ((metric_df_thresh5 rs).length : ℚ) + (fp_len : ℚ) ≠ 0 :=
      fun hc => h ((den_cast_eq_zero _ _).mp hc)
    exact ⟨by rw [lesion_wise_dice, np_div, if_neg hden],
           by rw [lesion_wise_hd95, np_div, if_neg hden]⟩
  · intro h
    have hden : ((metric_df_thresh5 rs).length : ℚ) + (fp_len : ℚ) = 0 :=
      (den_cast_eq_zero _ _).mpr h
    exact ⟨by rw [lesion_wise_dice, np_div, if_pos hden],
           by rw [lesion_wise_hd95, np_div, if_pos hden]⟩

/-- C3 witness: one thresholded record and one false positive give
denominator 2; and the empty frame with no false positives gives the NaN
sentinels. -/
theorem lesion_wise_aggregation_spec_witness :
    ((metric_df_thresh5 [MatchRecord.mk 6 (1/2) (some 3)]).length + 1 ≠ 0) ∧
    lesion_wise_dice [MatchRecord.mk 6 (1/2) (some 3)] 1 = some (1/4) ∧
    lesion_wise_hd95 [MatchRecord.mk 6 (1/2) (some 3)] 1 = some (377/2) ∧
    ((metric_df_thresh5 ([] : List MatchRecord)).length + 0 = 0) ∧
    lesion_wise_dice ([] : List MatchRecord) 0 = none ∧
    lesion_wise_hd95 ([] : List MatchRecord) 0 = none := by
  have h1 := (lesion_wise_aggregation_spec [MatchRecord.mk 6 (1/2) (some 3)] 1).1
    (by decide)
  have h2 := (lesion_wise_aggregation_spec ([] : List MatchRecord) 0).2 rfl
  refine ⟨by decide, ?_, ?_, rfl, h2.1, h2.2⟩
  · rw [h1.1]
    norm_num [metric_df_thresh5, metric_df_replaced, replace_inf]
  · rw [h1.2]
    norm_num [metric_df_thresh5, metric_df_replaced, replace_inf]

/-- C4: the `replace(np.inf, 374)` of eval.py 294 runs before threshold
filtering and aggregation: after it no record carries an infinite HD95;
each replaced record keeps its volume and Dice and carries
`374` exactly when the original HD95 was infinite; thresholding the
replaced frame equals replacing the thresholded frame; and the HD95 sum
fed to the aggregate is the sum of the substituted values over the
volume-filtered original records. -/
theorem hd95_inf_replacement (rs : List MatchRecord) :
    (∀ r ∈ metric_df_replaced rs, r.hd95_lesionwise ≠ none)
    ∧ (∀ i, i < rs.length →
        (metric_df_replaced rs).getD i default =
          { rs.getD i default with
              hd95_lesionwise := some ((rs.getD i default).hd95_lesionwise.getD 374) })
    ∧ metric_df_thresh5 rs =
        (rs.filter (fun r => decide (5 < r.gt_lesion_vol))).map replace_inf
    ∧ ((metric_df_thresh5 rs).map (fun r => r.hd95_lesionwise.getD 374)).sum =
        ((rs.filter (fun r => decide (5 < r.gt_lesion_vol))).map
          (fun r => r.hd95_lesionwise.getD 374)).sum := by
  have h3 : metric_df_thresh5 rs =
      (rs.filter (fun r => decide (5 < r.gt_lesion_vol))).map replace_inf := by
    unfold metric_df_thresh5 metric_df_replaced
    exact List.filter_map replace_inf rs
  refine ⟨?_, ?_, h3, ?_⟩
  · intro r hr
    rcases List.mem_map.mp hr with ⟨r0, _, hval⟩
    rw [← hval]
    exact Option.some_ne_none _
  · intro i hi
    rw [metric_df_replaced, getD_map_of_lt replace_inf rs i hi default default]
    rfl
  · rw [h3, List.map_map]
    rfl

/-- C4 witness. -/
theorem hd95_inf_replacement_witness :
    ((0 : Nat) < ([MatchRecord.mk 7 0 none] : List MatchRecord).length) ∧
    (metric_df_replaced [MatchRecord.mk 7 0 none]).getD 0 default =
      MatchRecord.mk 7 0 (some 374) ∧
    ((metric_df_thresh5 [MatchRecord.mk 7 0 none]).map
        (fun r => r.hd95_lesionwise.getD 374)).sum = 374 := by
  have h := hd95_inf_replacement [MatchRecord.mk 7 0 none]
  refine ⟨by decide, ?_, ?_⟩
  · rw [h.2.1 0 (by decide)]
    rfl
  · rw [h.2.2.2]
    norm_num

lemma mem_range_succ_map (n g : Nat) :
    g ∈ (List.range n).map (fun k => k + 1) ↔ 1 ≤ g ∧ g ≤ n := by
  rw [List.mem_map]
  constructor
  · rintro ⟨k, hk, rfl⟩
    have := List.mem_range.mp hk
    omega
  · rintro ⟨h1, h2⟩
    exact ⟨g - 1, List.mem_range.mpr (by omega), by omega⟩

lemma intersecting_ne_nil_iff (pred gt : List Nat) (g : Nat) :
    intersecting_cc pred gt g ≠ [] ↔ ∃ p, p ≠ 0 ∧ (p, g) ∈ pred.zip gt := by
  constructor
  · intro h
    obtain ⟨p, hp⟩ := List.exists_mem_of_ne_nil _ h
    exact ⟨p, (mem_intersecting_cc pred gt g p).mp hp⟩
  · rintro ⟨p, hp⟩
    exact List.ne_nil_of_mem ((mem_intersecting_cc pred gt g p).mpr hp)

/-- C5: a MatchRecord enters the lesion-wise aggregation exactly when its
GT lesion volume is strictly above 5; detection bookkeeping never consults
the volume: a lesion id `g` in `1 .. np.max(gt)` is in `gt_tp` exactly when
some nonzero predicted id overlaps it and in `fn` exactly otherwise, so
every lesion — including those at or below the volume threshold — lands in
exactly one of the two detection buckets, and `tp`/`fp` (whose membership
is characterized volume-free in the C1 theorem) are likewise untouched by
the filter. -/
theorem volume_threshold_and_detection (rs : List MatchRecord) (pred gt : List Nat) :
    (∀ r : MatchRecord, r ∈ metric_df_thresh5 rs ↔
        (r ∈ metric_df_replaced rs ∧ 5 < r.gt_lesion_vol))
    ∧ (∀ g : Nat, g ∈ gt_tpList pred gt ↔
        (1 ≤ g ∧ g ≤ np_max gt ∧ ∃ p, p ≠ 0 ∧ (p, g) ∈ pred.zip gt))
    ∧ (∀ g : Nat, g ∈ fnList pred gt ↔
        (1 ≤ g ∧ g ≤ np_max gt ∧ ¬∃ p, p ≠ 0 ∧ (p, g) ∈ pred.zip gt))
    ∧ (∀ g : Nat, 1 ≤ g → g ≤ np_max gt →
        ((g ∈ gt_tpList pred gt ∨ g ∈ fnList pred gt)
          ∧ ¬(g ∈ gt_tpList pred gt ∧ g ∈ fnList pred gt))) := by
  have htp : ∀ g : Nat, g ∈ gt_tpList pred gt ↔
      (1 ≤ g ∧ g ≤ np_max gt ∧ ∃ p, p ≠ 0 ∧ (p, g) ∈ pred.zip gt) := by
    intro g
    unfold gt_tpList
    rw [List.mem_filter, mem_range_succ_map]
    constructor
    · rintro ⟨⟨h1, h2⟩, hne⟩
      exact ⟨h1, h2, (intersecting_ne_nil_iff pred gt g).mp (of_decide_eq_true hne)⟩
    · rintro ⟨h1, h2, hex⟩
      exact ⟨⟨h1, h2⟩, decide_eq_true ((intersecting_ne_nil_iff pred gt g).mpr hex)⟩
  have hfn : ∀ g : Nat, g ∈ fnList pred gt ↔
      (1 ≤ g ∧ g ≤ np_max gt ∧ ¬∃ p, p ≠ 0 ∧ (p, g) ∈ pred.zip gt) := by
    intro g
    unfold fnList
    rw [List.mem_filter, mem_range_succ_map]
    constructor
    · rintro ⟨⟨h1, h2⟩, heq⟩
      refine ⟨h1, h2, fun hex => ?_⟩
      exact (intersecting_ne_nil_iff pred gt g).mpr hex (of_decide_eq_true heq)
    · rintro ⟨h1, h2, hnex⟩
      refine ⟨⟨h1, h2⟩, decide_eq_true ?_⟩
      by_contra hne
      exact hnex ((intersecting_ne_nil_iff pred gt g).mp hne)
  refine ⟨?_, htp, hfn, ?_⟩
  · intro r
    unfold metric_df_thresh5
    rw [List.mem_filter]
    constructor
    · rintro ⟨hm, hv⟩
      exact ⟨hm, of_decide_eq_true hv⟩
    · rintro ⟨hm, hv⟩
      exact ⟨hm, decide_eq_true hv⟩
  · intro g h1 h2
    by_cases hex : ∃ p, p ≠ 0 ∧ (p, g) ∈ pred.zip gt
    · refine ⟨Or.inl ((htp g).mpr ⟨h1, h2, hex⟩), fun hb => ?_⟩
      exact ((hfn g).mp hb.2).2.2 hex
    · refine ⟨Or.inr ((hfn g).mpr ⟨h1, h2, hex⟩), fun hb => ?_⟩
      exact hex ((htp g).mp hb.1).2.2

/-- C5 witness: the record with volume 6 is aggregated, the record with
volume 3 is not; lesion 2 of the GT map has no overlapping nonzero
predicted id and falls in exactly one detection bucket (`fn`). -/
theorem volume_threshold_and_detection_witness :
    (MatchRecord.mk 6 1 (some 0) ∈
        metric_df_thresh5 [MatchRecord.mk 6 1 (some 0), MatchRecord.mk 3 0 (some 7)] ↔
      (MatchRecord.mk 6 1 (some 0) ∈
        metric_df_replaced [MatchRecord.mk 6 1 (some 0), MatchRecord.mk 3 0 (some 7)]
        ∧ (5 : ℚ) < 6)) ∧
    ((1 : Nat) ≤ 2 ∧ 2 ≤ np_max [1, 2, 0]) ∧
    ((2 ∈ gt_tpList [1, 0, 3] [1, 2, 0] ∨ 2 ∈ fnList [1, 0, 3] [1, 2, 0])
      ∧ ¬(2 ∈ gt_tpList [1, 0, 3] [1, 2, 0] ∧ 2 ∈ fnList [1, 0, 3] [1, 2, 0])) := by
  have h := volume_threshold_and_detection
    [MatchRecord.mk 6 1 (some 0), MatchRecord.mk 3 0 (some 7)] [1, 0, 3] [1, 2, 0]
  exact ⟨h.1 (MatchRecord.mk 6 1 (some 0)), ⟨by decide, by decide⟩,
    h.2.2.2 2 (by decide) (by decide)⟩
